import Mathlib

/-!
# asio_cafeteria: the hot-dog order barrier of `cafeteria.h`

A shallow embedding of `class Order` and `class Cafeteria` from `src/cafeteria.h`.

* Asynchronous code is embedded as explicit state passing plus an event step function:
  every completion handler that `boost::asio` may run (a timer completion, a handler deferred to
  `strand_`, the completion of a burner acquisition) is one `Event`; a run is a list of
  time-stamped events, executed in list order.
* `handler_` is a caller-supplied callback; its invocations are recorded in `Order.handled`
  together with the steady-clock reading at which each one happens.
* Times are steady-clock readings in milliseconds (`Nat`); `1s` is `1000`, `1500ms` is `1500`.
* `int` is `Int` reduced to the 32-bit two's-complement range by `wrapInt`.
* `cafeteria.h` includes `hotdog.h` and `result.h`, whose text is not available: `Bread`,
  `Sausage`, `HotDog`, `GasCooker` and `Result` are modelled from the specification and marked
  as such.
-/

namespace Cafe

/-! ## Collaborators declared in `hotdog.h` / `result.h` -/

/-- The value of a `sys::error_code`; `0` is success, anything else a failure
(`125` is `operation_aborted`, the code of a cancelled wait). -/
abbrev ErrorCode := Nat

/-- The two parts of an order. -/
inductive PartKind
  | bread
  | sausage
  deriving DecidableEq, Repr

/-- A pending burner acquisition: the continuation of the part `kind` of order `orderId`. -/
structure Request where
  orderId : Int
  kind : PartKind
  deriving DecidableEq, Repr

/-- Modelled from the spec: the resource pool `GasCooker` of `hotdog.h` (§3, §4.1): a fixed
capacity, the count of free burners, the FIFO queue of waiting acquire requests, and the
requests whose acquisition has completed and whose continuation has been handed to the
scheduling fabric but has not run yet. -/
structure GasCooker where
  capacity : Nat
  available : Nat
  waiting : List Request
  posted : List Request
  deriving DecidableEq, Repr

/-- Modelled from the spec: a pool created at start-up with all burners free. -/
def GasCooker.new (capacity : Nat) : GasCooker :=
  { capacity := capacity, available := capacity, waiting := [], posted := [] }

/-- Modelled from the spec: `acquire()` of §4.1. With a free unit the request completes (its
continuation is posted, not run reentrantly) and availability drops; otherwise the request
joins the tail of the waiting queue. -/
def GasCooker.acquire (g : GasCooker) (r : Request) : GasCooker :=
  if 0 < g.available then
    { g with available := g.available - 1, posted := g.posted ++ [r] }
  else
    { g with waiting := g.waiting ++ [r] }

/-- Modelled from the spec: `release(token)` of §4.1. A waiting request at the head of the queue
receives the freed unit directly; with an empty queue availability grows. -/
def GasCooker.release (g : GasCooker) : GasCooker :=
  match g.waiting with
  | r :: rest => { g with waiting := rest, posted := g.posted ++ [r] }
  | [] => { g with available := g.available + 1 }

/-- Modelled from the spec: the continuation of a completed acquisition starts to run and
leaves the scheduling fabric. -/
def GasCooker.deliver (g : GasCooker) (r : Request) : GasCooker :=
  { g with posted := g.posted.erase r }

/-- Modelled from the spec: the part `Bread` of `hotdog.h` (§3 Ingredient/Part, §6): `started`
is set when its burner has been acquired ("cooking started"), `finished` by `StopBaking`. -/
structure Bread where
  id : Int
  started : Bool
  finished : Bool
  deriving DecidableEq, Repr

/-- Modelled from the spec: the part `Sausage` of `hotdog.h`, as `Bread`. -/
structure Sausage where
  id : Int
  started : Bool
  finished : Bool
  deriving DecidableEq, Repr

/-- Modelled from the spec: `Bread(id)`, a part that has neither started nor finished. -/
def Bread.new (id : Int) : Bread := { id := id, started := false, finished := false }

/-- Modelled from the spec: `Sausage(id)`. -/
def Sausage.new (id : Int) : Sausage := { id := id, started := false, finished := false }

/-- Modelled from the spec: `Part.is_finished()`. -/
def Bread.IsCooked (b : Bread) : Bool := b.finished

/-- Modelled from the spec: `Part.is_finished()`. -/
def Sausage.IsCooked (s : Sausage) : Bool := s.finished

/-- Modelled from the spec: `StartBake(cooker, handler)` requests a burner from the pool; the
part starts cooking, and `handler` runs, when the acquisition completes (`Bread.onBurner`). -/
def Bread.StartBake (b : Bread) (g : GasCooker) : Bread × GasCooker :=
  (b, g.acquire { orderId := b.id, kind := PartKind.bread })

/-- Modelled from the spec: `StartFry(cooker, handler)`, as `Bread.StartBake`. -/
def Sausage.StartFry (s : Sausage) (g : GasCooker) : Sausage × GasCooker :=
  (s, g.acquire { orderId := s.id, kind := PartKind.sausage })

/-- Modelled from the spec: the burner has been acquired, the part is marked "cooking started". -/
def Bread.onBurner (b : Bread) : Bread := { b with started := true }

/-- Modelled from the spec: the burner has been acquired, the part is marked "cooking started". -/
def Sausage.onBurner (s : Sausage) : Sausage := { s with started := true }

/-- Modelled from the spec: `StopBaking()` finalises the finished state and releases the burner
token; a part that never received a token has none to release. -/
def Bread.StopBaking (b : Bread) (g : GasCooker) : Bread × GasCooker :=
  ({ b with finished := true }, if b.started then g.release else g)

/-- Modelled from the spec: `StopFry()`, as `Bread.StopBaking`. -/
def Sausage.StopFry (s : Sausage) (g : GasCooker) : Sausage × GasCooker :=
  ({ s with finished := true }, if s.started then g.release else g)

/-- Modelled from the spec: the composite item `HotDog{id, sausage, bread}` of `hotdog.h`. The
parts are shared pointers in the source; the model keeps their state at assembly. -/
structure HotDog where
  id : Int
  sausage : Sausage
  bread : Bread
  deriving DecidableEq, Repr

/-- Modelled from the spec: `Result<T>` of `result.h` (§6 `Result<CompositeItem, Error>`): a
success holding a value, or a failure. `Result{v}` is `Result.value v`. -/
inductive Result (α : Type)
  | value (v : α)
  | failure (what : String)
  deriving DecidableEq, Repr

/-- A result is a success. -/
def Result.isValue {α : Type} : Result α → Bool
  | Result.value _ => true
  | Result.failure _ => false

/-! ## `net::steady_timer` -/

/-- A `net::steady_timer`: its expiry instant and whether an `async_wait` is outstanding. -/
structure SteadyTimer where
  expiry : Nat
  waiting : Bool
  deriving DecidableEq, Repr

/-- The call `timer.async_wait(handler)`. -/
def SteadyTimer.async_wait (t : SteadyTimer) : SteadyTimer := { t with waiting := true }

/-- The wait completes and its handler is taken off the timer. -/
def SteadyTimer.complete (t : SteadyTimer) : SteadyTimer := { t with waiting := false }

/-! ## `class Order` -/

/-- The handlers an `Order` defers to its `strand_`. -/
inductive StrandTask
  | OnBreadMade
  | OnSausageMade
  deriving DecidableEq, Repr

/-- The state of `class Order`. `start_time_` is `logger_.start_time_`, the construction
instant. `strand_` holds the handlers deferred to the strand and not yet run. `handled` records
the invocations of `handler_` (instant, argument), `log` the lines of `logger_` (elapsed time,
message). The shared `gas_cooker_` is passed along explicitly. -/
structure Order where
  id_ : Int
  start_time_ : Nat
  sausage_ : Sausage
  bread_ : Bread
  bread_timer_ : SteadyTimer
  sausage_timer_ : SteadyTimer
  strand_ : List StrandTask
  handled : List (Nat × Result HotDog)
  log : List (Nat × String)
  deriving DecidableEq, Repr

/-- The constructor `Order(io, id, handler, gas_cooker)` run at instant `now`, with the default
member initialisers: `bread_timer_{io_, 1s}`, `sausage_timer_{io_, 1500ms}`. -/
def Order.new (now : Nat) (id : Int) : Order :=
  { id_ := id
    start_time_ := now
    sausage_ := Sausage.new id
    bread_ := Bread.new id
    bread_timer_ := { expiry := now + 1000, waiting := false }
    sausage_timer_ := { expiry := now + 1500, waiting := false }
    strand_ := []
    handled := []
    log := [] }

/-- The call `logger_.LogMessage(message)` at instant `now`. -/
def Order.LogMessage (now : Nat) (message : String) (o : Order) : Order :=
  { o with log := o.log ++ [(now - o.start_time_, message)] }

/-- The method `Order::CheckReadiness`. -/
def Order.CheckReadiness (now : Nat) (o : Order) : Order :=
  if o.sausage_.IsCooked && o.bread_.IsCooked then
    { o with handled := o.handled ++
        [(now, Result.value { id := o.id_, sausage := o.sausage_, bread := o.bread_ })] }
  else
    o

/-- The method `Order::OnBreadMade`. -/
def Order.OnBreadMade (now : Nat) (o : Order) : Order :=
  Order.CheckReadiness now (Order.LogMessage now "Breed has been baked." o)

/-- The method `Order::OnSausageMade`. -/
def Order.OnSausageMade (now : Nat) (o : Order) : Order :=
  Order.CheckReadiness now (Order.LogMessage now "Sausage has been fried." o)

/-- The method `Order::MakeBread`: log, `StartBake` with the empty handler, `async_wait`. -/
def Order.MakeBread (now : Nat) (g : GasCooker) (o : Order) : GasCooker × Order :=
  let o1 := Order.LogMessage now "Start baking bread" o
  let r := o1.bread_.StartBake g
  (r.2, { o1 with bread_ := r.1, bread_timer_ := o1.bread_timer_.async_wait })

/-- The method `Order::MakeSausage`. -/
def Order.MakeSausage (now : Nat) (g : GasCooker) (o : Order) : GasCooker × Order :=
  let o1 := Order.LogMessage now "Start frying sausage" o
  let r := o1.sausage_.StartFry g
  (r.2, { o1 with sausage_ := r.1, sausage_timer_ := o1.sausage_timer_.async_wait })

/-- The method `Order::Execute`. -/
def Order.Execute (now : Nat) (g : GasCooker) (o : Order) : GasCooker × Order :=
  let r := Order.MakeBread now g o
  Order.MakeSausage now r.1 r.2

/-- The completion handler given to `bread_timer_.async_wait`: the error code is not looked at;
`StopBaking`, then `OnBreadMade` is deferred to `strand_`. -/
def Order.breadWaitHandler (_ec : ErrorCode) (g : GasCooker) (o : Order) : GasCooker × Order :=
  let r := o.bread_.StopBaking g
  (r.2, { o with bread_ := r.1, strand_ := o.strand_ ++ [StrandTask.OnBreadMade] })

/-- The completion handler given to `sausage_timer_.async_wait`. -/
def Order.sausageWaitHandler (_ec : ErrorCode) (g : GasCooker) (o : Order) : GasCooker × Order :=
  let r := o.sausage_.StopFry g
  (r.2, { o with sausage_ := r.1, strand_ := o.strand_ ++ [StrandTask.OnSausageMade] })

/-! ## Runs of one order -/

/-- The handlers `boost::asio` can run for one order. -/
inductive Event
  /-- the bread burner acquisition completes; `StartBake`'s handler `[]() {}` runs -/
  | breadBurner
  /-- the sausage burner acquisition completes; `StartFry`'s handler `[]() {}` runs -/
  | sausageBurner
  /-- the wait on `bread_timer_` completes with the given error code -/
  | breadTimer (ec : ErrorCode)
  /-- the wait on `sausage_timer_` completes with the given error code -/
  | sausageTimer (ec : ErrorCode)
  /-- the strand runs the deferred call of `OnBreadMade` -/
  | onBreadMade
  /-- the strand runs the deferred call of `OnSausageMade` -/
  | onSausageMade
  deriving DecidableEq, Repr

/-- The event is a part-done notification: it runs `CheckReadiness` once. -/
def Event.isPartDone : Event → Bool
  | Event.onBreadMade => true
  | Event.onSausageMade => true
  | _ => false

/-- The steady clock, the shared gas cooker and one order. -/
structure Sim where
  now : Nat
  cooker : GasCooker
  order : Order
  deriving DecidableEq, Repr

/-- One handler runs at instant `t`. `none` when the event cannot happen: the clock would run
backwards, a wait that is not outstanding completes, a successful wait completes before the
timer's expiry, a handler runs that was not deferred to the strand, or an acquisition completes
that the pool has not granted. Any handler deferred to the strand may run next: the two timer
completions can run on different threads, so their deferrals are not ordered. `cafeteria.h`
never cancels its timers, so its waits complete with success; completions with another code
are admitted all the same, which only adds runs. -/
def step (t : Nat) (e : Event) (s : Sim) : Option Sim :=
  if t < s.now then none
  else
    match e with
    | Event.breadBurner =>
      if ({ orderId := s.order.id_, kind := PartKind.bread } : Request) ∈ s.cooker.posted then
        some { now := t
               cooker := s.cooker.deliver { orderId := s.order.id_, kind := PartKind.bread }
               order := { s.order with bread_ := s.order.bread_.onBurner } }
      else none
    | Event.sausageBurner =>
      if ({ orderId := s.order.id_, kind := PartKind.sausage } : Request) ∈ s.cooker.posted then
        some { now := t
               cooker := s.cooker.deliver { orderId := s.order.id_, kind := PartKind.sausage }
               order := { s.order with sausage_ := s.order.sausage_.onBurner } }
      else none
    | Event.breadTimer ec =>
      if s.order.bread_timer_.waiting = true ∧ (ec = 0 → s.order.bread_timer_.expiry ≤ t) then
        let r := Order.breadWaitHandler ec s.cooker
          { s.order with bread_timer_ := s.order.bread_timer_.complete }
        some { now := t, cooker := r.1, order := r.2 }
      else none
    | Event.sausageTimer ec =>
      if s.order.sausage_timer_.waiting = true ∧ (ec = 0 → s.order.sausage_timer_.expiry ≤ t) then
        let r := Order.sausageWaitHandler ec s.cooker
          { s.order with sausage_timer_ := s.order.sausage_timer_.complete }
        some { now := t, cooker := r.1, order := r.2 }
      else none
    | Event.onBreadMade =>
      if StrandTask.OnBreadMade ∈ s.order.strand_ then
        some { s with
          now := t
          order := Order.OnBreadMade t
            { s.order with strand_ := s.order.strand_.erase StrandTask.OnBreadMade } }
      else none
    | Event.onSausageMade =>
      if StrandTask.OnSausageMade ∈ s.order.strand_ then
        some { s with
          now := t
          order := Order.OnSausageMade t
            { s.order with strand_ := s.order.strand_.erase StrandTask.OnSausageMade } }
      else none

/-- Runs the time-stamped events of a schedule in order; `none` when one cannot happen. -/
def run : List (Nat × Event) → Sim → Option Sim
  | [], s => some s
  | (t, e) :: rest, s =>
    match step t e s with
    | some s1 => run rest s1
    | none => none

/-- An order with identifier `id` is constructed at instant `t0` over the cooker `g` and
`Execute` is called on it (as `Cafeteria::OrderHotDog` does). -/
def Sim.start (t0 : Nat) (g : GasCooker) (id : Int) : Sim :=
  let r := Order.Execute t0 g (Order.new t0 id)
  { now := t0, cooker := r.1, order := r.2 }

/-- Nothing of the order is outstanding: both waits have completed and every deferred
part-done notification has run. -/
def Sim.complete (s : Sim) : Prop :=
  s.order.bread_timer_.waiting = false ∧ s.order.sausage_timer_.waiting = false ∧
    s.order.strand_ = []

instance (s : Sim) : Decidable s.complete := by
  unfold Sim.complete; infer_instance

/-! ## `class Cafeteria` -/

/-- The value an `int` holds after an arithmetic result `x`: two's-complement wrap-around to
`[-2^31, 2^31)`. (Signed overflow is undefined in C++; the wrap is what the compiled increment
does.) -/
def wrapInt (x : Int) : Int := (x + 2147483648) % 4294967296 - 2147483648

/-- The largest `int`. -/
def INT_MAX : Int := 2147483647

/-- The smallest `int`. -/
def INT_MIN : Int := -2147483648

/-- The state of `class Cafeteria`: the counter `next_order_id_` (declared without an
initialiser) and the shared `gas_cooker_`. -/
structure Cafeteria where
  next_order_id_ : Int
  gas_cooker_ : GasCooker
  deriving DecidableEq, Repr

/-- The constructor `Cafeteria(io)`: `next_order_id_` is left with whatever value `garbage`
the storage holds; the cooker has 8 burners (the comment on `gas_cooker_`). -/
def Cafeteria.new (garbage : Int) : Cafeteria :=
  { next_order_id_ := garbage, gas_cooker_ := GasCooker.new 8 }

/-- The method `Cafeteria::OrderHotDog` called at instant `now`:
`const int order_id = ++next_order_id_;` then `make_shared<Order>(...)->Execute()`.
Returns the cafeteria and the order it started. -/
def Cafeteria.OrderHotDog (now : Nat) (c : Cafeteria) : Cafeteria × Order :=
  let order_id := wrapInt (c.next_order_id_ + 1)
  let r := Order.Execute now c.gas_cooker_ (Order.new now order_id)
  ({ next_order_id_ := order_id, gas_cooker_ := r.1 }, r.2)

/-- The orders started by `n` successive calls of `OrderHotDog` at instant `now`, first call
first, and the cafeteria after them. -/
def Cafeteria.orderMany (now : Nat) : Nat → Cafeteria → Cafeteria × List Order
  | 0, c => (c, [])
  | n + 1, c =>
    let r := Cafeteria.OrderHotDog now c
    let rs := Cafeteria.orderMany now n r.1
    (rs.1, r.2 :: rs.2)

/-- The identifiers assigned by `n` successive calls of `OrderHotDog`. -/
def Cafeteria.orderIds (n : Nat) (c : Cafeteria) : List Int :=
  (Cafeteria.orderMany 0 n c).2.map (fun o => o.id_)

/-! ## Two threads in `OrderHotDog`

`next_order_id_` is a plain `int` and `OrderHotDog` takes no lock. The statement
`const int order_id = ++next_order_id_;` is, for one thread, a load of the counter, a store of
the loaded value plus one, and a read of the counter that initialises `order_id` (the value of
a pre-increment is the incremented object itself). The accesses of two threads interleave. A
build that keeps the stored value in a register behaves as a read right after the thread's own
store. -/

/-- The memory accesses of `const int order_id = ++next_order_id_;` by thread `tid`. -/
inductive Access
  | load (tid : Fin 2)
  | store (tid : Fin 2)
  | read (tid : Fin 2)
  deriving DecidableEq, Repr

/-- The counter, each thread's loaded value, whether the thread has stored, and each thread's
`order_id` once initialised. -/
structure Racing where
  next_order_id_ : Int
  loaded : Fin 2 → Option Int
  stored : Fin 2 → Bool
  order_id : Fin 2 → Option Int

/-- Two threads enter `OrderHotDog` with the counter at `init`. -/
def Racing.start (init : Int) : Racing :=
  { next_order_id_ := init
    loaded := fun _ => none
    stored := fun _ => false
    order_id := fun _ => none }

/-- One memory access. A thread stores the value it loaded plus one, and initialises its
`order_id` from the counter after its store; a store without the preceding load, or a read
without the preceding store, cannot happen. -/
def Racing.access (r : Racing) : Access → Option Racing
  | Access.load tid =>
    some { r with loaded := fun i => if i = tid then some r.next_order_id_ else r.loaded i }
  | Access.store tid =>
    match r.loaded tid with
    | some v =>
      some { r with
        next_order_id_ := wrapInt (v + 1)
        stored := fun i => if i = tid then true else r.stored i }
    | none => none
  | Access.read tid =>
    if r.stored tid = true then
      some { r with order_id := fun i => if i = tid then some r.next_order_id_ else r.order_id i }
    else none

/-- Runs the accesses of an interleaving in order. -/
def Racing.run : List Access → Racing → Option Racing
  | [], r => some r
  | a :: rest, r =>
    match r.access a with
    | some r1 => Racing.run rest r1
    | none => none

/-! ## Predicates used to state and prove the properties -/

/-- The fields a part-done handler leaves alone, and what it does to `handled`. -/
structure CheckEffect (t : Nat) (o o1 : Order) : Prop where
  id_eq : o1.id_ = o.id_
  start_eq : o1.start_time_ = o.start_time_
  sausage_eq : o1.sausage_ = o.sausage_
  bread_eq : o1.bread_ = o.bread_
  btimer_eq : o1.bread_timer_ = o.bread_timer_
  stimer_eq : o1.sausage_timer_ = o.sausage_timer_
  strand_eq : o1.strand_ = o.strand_
  fires : o.sausage_.finished = true ∧ o.bread_.finished = true →
    o1.handled = o.handled ++
      [(t, Result.value { id := o.id_, sausage := o.sausage_, bread := o.bread_ })]
  quiet : ¬ (o.sausage_.finished = true ∧ o.bread_.finished = true) → o1.handled = o.handled

/-- The summary of one step on the fields the barrier reads. A step is the completion of a
burner acquisition, the completion of a wait, or a part-done notification. -/
inductive StepKind (t : Nat) (e : Event) (o o1 : Order) : Prop
  | burner (hpd : e.isPartDone = false)
      (hb : e = Event.breadBurner ∨ e = Event.sausageBurner)
      (hbf : o1.bread_.finished = o.bread_.finished)
      (hsf : o1.sausage_.finished = o.sausage_.finished)
      (hbi : o1.bread_.id = o.bread_.id) (hsi : o1.sausage_.id = o.sausage_.id)
      (hbt : o1.bread_timer_ = o.bread_timer_) (hst : o1.sausage_timer_ = o.sausage_timer_)
      (hq : o1.strand_ = o.strand_) (hh : o1.handled = o.handled)
  | breadStop (ec : ErrorCode) (he : e = Event.breadTimer ec)
      (hw : o.bread_timer_.waiting = true) (hx : ec = 0 → o.bread_timer_.expiry ≤ t)
      (hbf : o1.bread_.finished = true)
      (hsf : o1.sausage_ = o.sausage_)
      (hbi : o1.bread_.id = o.bread_.id)
      (hbt : o1.bread_timer_ = o.bread_timer_.complete)
      (hst : o1.sausage_timer_ = o.sausage_timer_)
      (hq : o1.strand_ = o.strand_ ++ [StrandTask.OnBreadMade]) (hh : o1.handled = o.handled)
  | sausageStop (ec : ErrorCode) (he : e = Event.sausageTimer ec)
      (hw : o.sausage_timer_.waiting = true) (hx : ec = 0 → o.sausage_timer_.expiry ≤ t)
      (hsf : o1.sausage_.finished = true)
      (hbf : o1.bread_ = o.bread_)
      (hsi : o1.sausage_.id = o.sausage_.id)
      (hst : o1.sausage_timer_ = o.sausage_timer_.complete)
      (hbt : o1.bread_timer_ = o.bread_timer_)
      (hq : o1.strand_ = o.strand_ ++ [StrandTask.OnSausageMade]) (hh : o1.handled = o.handled)
  | check (task : StrandTask) (hpd : e.isPartDone = true) (hm : task ∈ o.strand_)
      (hbf : o1.bread_ = o.bread_) (hsf : o1.sausage_ = o.sausage_)
      (hbt : o1.bread_timer_ = o.bread_timer_) (hst : o1.sausage_timer_ = o.sausage_timer_)
      (hq : o1.strand_ = o.strand_.erase task)
      (fires : o.sausage_.finished = true ∧ o.bread_.finished = true →
        o1.handled = o.handled ++
          [(t, Result.value { id := o.id_, sausage := o.sausage_, bread := o.bread_ })])
      (quiet : ¬ (o.sausage_.finished = true ∧ o.bread_.finished = true) →
        o1.handled = o.handled)

/-- The completions an order still waits for: handlers deferred to the strand plus
outstanding waits. -/
def Order.pending (o : Order) : Nat :=
  o.strand_.length + (if o.bread_timer_.waiting then 1 else 0) +
    (if o.sausage_timer_.waiting then 1 else 0)

/-- The handler argument an order with identifier `id` may deliver: a success holding a hot dog
with that identifier, made of parts with that identifier that are both cooked. -/
def GoodCall (id : Int) (x : Nat × Result HotDog) : Prop :=
  ∃ sq br, x.2 = Result.value { id := id, sausage := sq, bread := br } ∧
    sq.id = id ∧ br.id = id ∧ sq.IsCooked = true ∧ br.IsCooked = true

/-- The invariant of an executing order. -/
structure Order.WF (o : Order) : Prop where
  breadFin : o.bread_.finished = !o.bread_timer_.waiting
  sausageFin : o.sausage_.finished = !o.sausage_timer_.waiting
  breadId : o.bread_.id = o.id_
  sausageId : o.sausage_.id = o.id_
  breadExpiry : o.bread_timer_.expiry = o.start_time_ + 1000
  sausageExpiry : o.sausage_timer_.expiry = o.start_time_ + 1500
  silent : ¬ (o.sausage_.finished = true ∧ o.bread_.finished = true) → o.handled = []
  good : ∀ x ∈ o.handled, GoodCall o.id_ x

/-- Both timer completions (which run `StopBaking` and `StopFry`) come before the first
part-done notification (which runs `CheckReadiness`) of the schedule. -/
def stopsBeforeFirstCheck (sched : List (Nat × Event)) : Bool :=
  let before := sched.takeWhile (fun te => !te.2.isPartDone)
  before.any (fun te => match te.2 with
    | Event.breadTimer _ => true
    | _ => false) &&
  before.any (fun te => match te.2 with
    | Event.sausageTimer _ => true
    | _ => false)

/-! ## What one handler does to an order -/

theorem checkReadiness_of_cooked (now : Nat) (o : Order)
    (h : o.sausage_.finished = true ∧ o.bread_.finished = true) :
    Order.CheckReadiness now o = { o with handled := o.handled ++
      [(now, Result.value { id := o.id_, sausage := o.sausage_, bread := o.bread_ })] } := by
  unfold Order.CheckReadiness Sausage.IsCooked Bread.IsCooked
  rw [h.1, h.2]; rfl

theorem checkReadiness_of_not_cooked (now : Nat) (o : Order)
    (h : ¬ (o.sausage_.finished = true ∧ o.bread_.finished = true)) :
    Order.CheckReadiness now o = o := by
  unfold Order.CheckReadiness Sausage.IsCooked Bread.IsCooked
  have h2 : (o.sausage_.finished && o.bread_.finished) = false := by
    cases hs : o.sausage_.finished <;> cases hb : o.bread_.finished <;> simp_all
  rw [h2]; rfl

theorem checkEffect_checkReadiness (t : Nat) (o : Order) :
    CheckEffect t o (Order.CheckReadiness t o) := by
  by_cases h : o.sausage_.finished = true ∧ o.bread_.finished = true
  · rw [checkReadiness_of_cooked t o h]
    exact ⟨rfl, rfl, rfl, rfl, rfl, rfl, rfl, fun _ => rfl, fun h2 => absurd h h2⟩
  · rw [checkReadiness_of_not_cooked t o h]
    exact ⟨rfl, rfl, rfl, rfl, rfl, rfl, rfl, fun h2 => absurd h2 h, fun _ => rfl⟩

theorem checkEffect_onBreadMade (t : Nat) (o : Order) :
    CheckEffect t o (Order.OnBreadMade t o) := by
  have c := checkEffect_checkReadiness t (Order.LogMessage t "Breed has been baked." o)
  exact ⟨c.id_eq, c.start_eq, c.sausage_eq, c.bread_eq, c.btimer_eq, c.stimer_eq, c.strand_eq,
    c.fires, c.quiet⟩

theorem checkEffect_onSausageMade (t : Nat) (o : Order) :
    CheckEffect t o (Order.OnSausageMade t o) := by
  have c := checkEffect_checkReadiness t (Order.LogMessage t "Sausage has been fried." o)
  exact ⟨c.id_eq, c.start_eq, c.sausage_eq, c.bread_eq, c.btimer_eq, c.stimer_eq, c.strand_eq,
    c.fires, c.quiet⟩

/-! ## Inversion of `step` -/

theorem step_time {t : Nat} {e : Event} {s s1 : Sim} (h : step t e s = some s1) :
    s.now ≤ t ∧ s1.now = t := by
  unfold step at h
  by_cases h0 : t < s.now
  · simp [h0] at h
  · rw [if_neg h0] at h
    cases e <;> simp only at h <;> split_ifs at h <;>
      (simp only [Option.some.injEq] at h; subst h; exact ⟨Nat.le_of_not_lt h0, rfl⟩)

theorem step_breadBurner {t : Nat} {s s1 : Sim} (h : step t Event.breadBurner s = some s1) :
    s1.order = { s.order with bread_ := s.order.bread_.onBurner } := by
  simp only [step] at h
  split_ifs at h
  simp only [Option.some.injEq] at h; subst h; rfl

theorem step_sausageBurner {t : Nat} {s s1 : Sim} (h : step t Event.sausageBurner s = some s1) :
    s1.order = { s.order with sausage_ := s.order.sausage_.onBurner } := by
  simp only [step] at h
  split_ifs at h
  simp only [Option.some.injEq] at h; subst h; rfl

theorem step_breadTimer {t : Nat} {ec : ErrorCode} {s s1 : Sim}
    (h : step t (Event.breadTimer ec) s = some s1) :
    s.order.bread_timer_.waiting = true ∧ (ec = 0 → s.order.bread_timer_.expiry ≤ t) ∧
    s1.order = { s.order with
      bread_timer_ := s.order.bread_timer_.complete
      bread_ := { s.order.bread_ with finished := true }
      strand_ := s.order.strand_ ++ [StrandTask.OnBreadMade] } := by
  simp only [step] at h
  split_ifs at h with h0 h1
  simp only [Option.some.injEq] at h; subst h
  exact ⟨h1.1, h1.2, rfl⟩

theorem step_sausageTimer {t : Nat} {ec : ErrorCode} {s s1 : Sim}
    (h : step t (Event.sausageTimer ec) s = some s1) :
    s.order.sausage_timer_.waiting = true ∧ (ec = 0 → s.order.sausage_timer_.expiry ≤ t) ∧
    s1.order = { s.order with
      sausage_timer_ := s.order.sausage_timer_.complete
      sausage_ := { s.order.sausage_ with finished := true }
      strand_ := s.order.strand_ ++ [StrandTask.OnSausageMade] } := by
  simp only [step] at h
  split_ifs at h with h0 h1
  simp only [Option.some.injEq] at h; subst h
  exact ⟨h1.1, h1.2, rfl⟩

theorem step_onBreadMade {t : Nat} {s s1 : Sim} (h : step t Event.onBreadMade s = some s1) :
    StrandTask.OnBreadMade ∈ s.order.strand_ ∧
    CheckEffect t { s.order with strand_ := s.order.strand_.erase StrandTask.OnBreadMade }
      s1.order := by
  simp only [step] at h
  split_ifs at h with h0 h1
  simp only [Option.some.injEq] at h; subst h
  exact ⟨h1, checkEffect_onBreadMade t _⟩

theorem step_onSausageMade {t : Nat} {s s1 : Sim} (h : step t Event.onSausageMade s = some s1) :
    StrandTask.OnSausageMade ∈ s.order.strand_ ∧
    CheckEffect t { s.order with strand_ := s.order.strand_.erase StrandTask.OnSausageMade }
      s1.order := by
  simp only [step] at h
  split_ifs at h with h0 h1
  simp only [Option.some.injEq] at h; subst h
  exact ⟨h1, checkEffect_onSausageMade t _⟩

theorem step_kind {t : Nat} {e : Event} {s s1 : Sim} (h : step t e s = some s1) :
    StepKind t e s.order s1.order ∧ s1.order.id_ = s.order.id_ ∧
      s1.order.start_time_ = s.order.start_time_ := by
  cases e with
  | breadBurner =>
    have h1 := step_breadBurner h
    refine ⟨StepKind.burner rfl (Or.inl rfl) ?_ ?_ ?_ ?_ ?_ ?_ ?_ ?_, ?_, ?_⟩ <;> rw [h1] <;> rfl
  | sausageBurner =>
    have h1 := step_sausageBurner h
    refine ⟨StepKind.burner rfl (Or.inr rfl) ?_ ?_ ?_ ?_ ?_ ?_ ?_ ?_, ?_, ?_⟩ <;> rw [h1] <;> rfl
  | breadTimer ec =>
    obtain ⟨hw, hx, h1⟩ := step_breadTimer h
    refine ⟨StepKind.breadStop ec rfl hw hx ?_ ?_ ?_ ?_ ?_ ?_ ?_, ?_, ?_⟩ <;> rw [h1]
  | sausageTimer ec =>
    obtain ⟨hw, hx, h1⟩ := step_sausageTimer h
    refine ⟨StepKind.sausageStop ec rfl hw hx ?_ ?_ ?_ ?_ ?_ ?_ ?_, ?_, ?_⟩ <;> rw [h1]
  | onBreadMade =>
    obtain ⟨hm, c⟩ := step_onBreadMade h
    exact ⟨StepKind.check StrandTask.OnBreadMade rfl hm c.bread_eq c.sausage_eq c.btimer_eq
      c.stimer_eq c.strand_eq c.fires c.quiet, c.id_eq, c.start_eq⟩
  | onSausageMade =>
    obtain ⟨hm, c⟩ := step_onSausageMade h
    exact ⟨StepKind.check StrandTask.OnSausageMade rfl hm c.bread_eq c.sausage_eq c.btimer_eq
      c.stimer_eq c.strand_eq c.fires c.quiet, c.id_eq, c.start_eq⟩

theorem start_order (t0 : Nat) (g : GasCooker) (id : Int) :
    (Sim.start t0 g id).order =
      { id_ := id
        start_time_ := t0
        sausage_ := Sausage.new id
        bread_ := Bread.new id
        bread_timer_ := { expiry := t0 + 1000, waiting := true }
        sausage_timer_ := { expiry := t0 + 1500, waiting := true }
        strand_ := []
        handled := []
        log := [(0, "Start baking bread"), (0, "Start frying sausage")] } := by
  simp [Sim.start, Order.Execute, Order.MakeBread, Order.MakeSausage, Order.LogMessage, Order.new,
    Bread.StartBake, Sausage.StartFry, SteadyTimer.async_wait]

theorem wf_start (t0 : Nat) (g : GasCooker) (id : Int) : (Sim.start t0 g id).order.WF := by
  rw [start_order]
  refine ⟨rfl, rfl, rfl, rfl, rfl, rfl, fun _ => rfl, ?_⟩
  intro x hx
  simp at hx

theorem pending_start (t0 : Nat) (g : GasCooker) (id : Int) :
    (Sim.start t0 g id).order.pending = 2 := by
  rw [start_order]; rfl

theorem wf_step {t : Nat} {e : Event} {s s1 : Sim} (hwf : s.order.WF)
    (h : step t e s = some s1) : s1.order.WF := by
  obtain ⟨k, hid, hst⟩ := step_kind h
  obtain ⟨bF, sF, bI, sI, bE, sE, sil, good⟩ := hwf
  cases k with
  | burner hpd hb hbf hsf hbi hsi hbt hst2 hq hh =>
    refine ⟨?_, ?_, ?_, ?_, ?_, ?_, ?_, ?_⟩
    · rw [hbf, hbt]; exact bF
    · rw [hsf, hst2]; exact sF
    · rw [hbi, hid]; exact bI
    · rw [hsi, hid]; exact sI
    · rw [hbt, hst]; exact bE
    · rw [hst2, hst]; exact sE
    · rw [hbf, hsf, hh]; exact sil
    · rw [hh, hid]; exact good
  | breadStop ec he hw hx hbf hsf hbi hbt hst2 hq hh =>
    refine ⟨?_, ?_, ?_, ?_, ?_, ?_, ?_, ?_⟩
    · rw [hbf, hbt]; rfl
    · rw [hsf, hst2]; exact sF
    · rw [hbi, hid]; exact bI
    · rw [hsf, hid]; exact sI
    · rw [hbt, hst]; exact bE
    · rw [hst2, hst]; exact sE
    · intro _
      rw [hh]; apply sil
      rw [bF, hw]; simp
    · rw [hh, hid]; exact good
  | sausageStop ec he hw hx hsf hbf hsi hst2 hbt hq hh =>
    refine ⟨?_, ?_, ?_, ?_, ?_, ?_, ?_, ?_⟩
    · rw [hbf, hbt]; exact bF
    · rw [hsf, hst2]; rfl
    · rw [hbf, hid]; exact bI
    · rw [hsi, hid]; exact sI
    · rw [hbt, hst]; exact bE
    · rw [hst2, hst]; exact sE
    · intro _
      rw [hh]; apply sil
      rw [sF, hw]; simp
    · rw [hh, hid]; exact good
  | check task hpd hm hbf hsf hbt hst2 hq fires quiet =>
    refine ⟨?_, ?_, ?_, ?_, ?_, ?_, ?_, ?_⟩
    · rw [hbf, hbt]; exact bF
    · rw [hsf, hst2]; exact sF
    · rw [hbf, hid]; exact bI
    · rw [hsf, hid]; exact sI
    · rw [hbt, hst]; exact bE
    · rw [hst2, hst]; exact sE
    · rw [hbf, hsf]
      intro hn
      rw [quiet hn]; exact sil hn
    · rw [hid]
      by_cases hc : s.order.sausage_.finished = true ∧ s.order.bread_.finished = true
      · rw [fires hc]
        intro x hx
        rcases List.mem_append.1 hx with hx | hx
        · exact good x hx
        · rw [List.mem_singleton] at hx
          subst hx
          exact ⟨s.order.sausage_, s.order.bread_, rfl, sI, bI, hc.1, hc.2⟩
      · rw [quiet hc]; exact good

theorem pending_step {t : Nat} {e : Event} {s s1 : Sim} (h : step t e s = some s1) :
    s1.order.pending + (if e.isPartDone then 1 else 0) = s.order.pending := by
  obtain ⟨k, -, -⟩ := step_kind h
  unfold Order.pending
  cases k with
  | burner hpd hb hbf hsf hbi hsi hbt hst2 hq hh =>
    rw [hpd, hbt, hst2, hq]; simp
  | breadStop ec he hw hx hbf hsf hbi hbt hst2 hq hh =>
    subst he
    rw [hbt, hst2, hq, hw]
    cases s.order.bread_timer_.waiting <;> cases s.order.sausage_timer_.waiting <;>
      simp [SteadyTimer.complete, Event.isPartDone]
  | sausageStop ec he hw hx hsf hbf hsi hst2 hbt hq hh =>
    subst he
    rw [hbt, hst2, hq, hw]
    cases s.order.bread_timer_.waiting <;> cases s.order.sausage_timer_.waiting <;>
      simp [SteadyTimer.complete, Event.isPartDone]
  | check task hpd hm hbf hsf hbt hst2 hq fires quiet =>
    rw [hpd, hbt, hst2, hq, List.length_erase_of_mem hm]
    have : 0 < s.order.strand_.length := List.length_pos_of_mem hm
    cases s.order.bread_timer_.waiting <;> cases s.order.sausage_timer_.waiting <;>
      simp <;> omega

/-! ## Runs -/

theorem run_cons {t : Nat} {e : Event} {rest : List (Nat × Event)} {s s2 : Sim}
    (h : run ((t, e) :: rest) s = some s2) :
    ∃ s1, step t e s = some s1 ∧ run rest s1 = some s2 := by
  simp only [run] at h
  cases hs : step t e s with
  | none => rw [hs] at h; cases h
  | some s1 => rw [hs] at h; exact ⟨s1, rfl, h⟩

theorem run_cons_of_step {t : Nat} {e : Event} {rest : List (Nat × Event)} {s s1 : Sim}
    (h : step t e s = some s1) : run ((t, e) :: rest) s = run rest s1 := by
  simp only [run, h]

theorem run_append {a b : List (Nat × Event)} {s s2 : Sim} (h : run (a ++ b) s = some s2) :
    ∃ s1, run a s = some s1 ∧ run b s1 = some s2 := by
  induction a generalizing s with
  | nil => exact ⟨s, rfl, h⟩
  | cons x a ih =>
    obtain ⟨t, e⟩ := x
    obtain ⟨s1, h1, h2⟩ := run_cons h
    obtain ⟨s3, h3, h4⟩ := ih h2
    exact ⟨s3, by rw [run_cons_of_step h1]; exact h3, h4⟩

theorem run_append_of {a b : List (Nat × Event)} {s s1 : Sim} (h : run a s = some s1) :
    run (a ++ b) s = run b s1 := by
  induction a generalizing s with
  | nil => simp only [run, Option.some.injEq] at h; subst h; rfl
  | cons x a ih =>
    obtain ⟨t, e⟩ := x
    obtain ⟨s2, h1, h2⟩ := run_cons h
    rw [List.cons_append, run_cons_of_step h1]
    exact ih h2

theorem wf_run {sched : List (Nat × Event)} {s s1 : Sim} (hwf : s.order.WF)
    (h : run sched s = some s1) : s1.order.WF := by
  induction sched generalizing s with
  | nil => simp only [run, Option.some.injEq] at h; subst h; exact hwf
  | cons x rest ih =>
    obtain ⟨t, e⟩ := x
    obtain ⟨s2, h1, h2⟩ := run_cons h
    exact ih (wf_step hwf h1) h2

theorem run_fixed {sched : List (Nat × Event)} {s s1 : Sim} (h : run sched s = some s1) :
    s1.order.id_ = s.order.id_ ∧ s1.order.start_time_ = s.order.start_time_ ∧ s.now ≤ s1.now := by
  induction sched generalizing s with
  | nil => simp only [run, Option.some.injEq] at h; subst h; exact ⟨rfl, rfl, le_refl _⟩
  | cons x rest ih =>
    obtain ⟨t, e⟩ := x
    obtain ⟨s2, h1, h2⟩ := run_cons h
    obtain ⟨a, b, c⟩ := ih h2
    obtain ⟨-, hid, hst⟩ := step_kind h1
    obtain ⟨ht1, ht2⟩ := step_time h1
    exact ⟨a.trans hid, b.trans hst, by omega⟩

theorem pending_run {sched : List (Nat × Event)} {s s1 : Sim} (h : run sched s = some s1) :
    s1.order.pending + sched.countP (fun te => te.2.isPartDone) = s.order.pending := by
  induction sched generalizing s with
  | nil => simp only [run, Option.some.injEq] at h; subst h; simp
  | cons x rest ih =>
    obtain ⟨t, e⟩ := x
    obtain ⟨s2, h1, h2⟩ := run_cons h
    have a := ih h2
    have b := pending_step h1
    rw [List.countP_cons]
    simp only
    omega

/-- The timer completions of a schedule that has no part-done notification set the finished
flags and leave `handled` alone. -/
theorem run_no_check {sched : List (Nat × Event)} {s s1 : Sim} (h : run sched s = some s1)
    (hn : ∀ x ∈ sched, x.2.isPartDone = false) :
    s1.order.handled = s.order.handled ∧
    s1.order.bread_.finished = (s.order.bread_.finished || sched.any (fun te => match te.2 with
      | Event.breadTimer _ => true
      | _ => false)) ∧
    s1.order.sausage_.finished = (s.order.sausage_.finished ||
      sched.any (fun te => match te.2 with
        | Event.sausageTimer _ => true
        | _ => false)) := by
  induction sched generalizing s with
  | nil => simp only [run, Option.some.injEq] at h; subst h; simp
  | cons x rest ih =>
    obtain ⟨t, e⟩ := x
    obtain ⟨s2, h1, h2⟩ := run_cons h
    obtain ⟨a, b, c⟩ := ih h2 (fun y hy => hn y (List.mem_cons_of_mem _ hy))
    have he : e.isPartDone = false := hn (t, e) (List.mem_cons_self _ _)
    obtain ⟨k, -, -⟩ := step_kind h1
    rw [a, b, c]
    cases k with
    | burner hpd hb hbf hsf hbi hsi hbt hst2 hq hh =>
      rw [hh, hbf, hsf]
      rcases hb with hb | hb <;> subst hb <;> simp
    | breadStop ec he2 hw hx hbf hsf hbi hbt hst2 hq hh =>
      subst he2
      rw [hh, hbf, hsf]; simp
    | sausageStop ec he2 hw hx hsf hbf hsi hst2 hbt hq hh =>
      subst he2
      rw [hh, hbf, hsf]; simp
    | check task hpd hm hbf hsf hbt hst2 hq fires quiet =>
      rw [he] at hpd; cases hpd

/-- A schedule either has no part-done notification, or splits at its first one. -/
theorem split_first_check (sched : List (Nat × Event)) :
    (∀ x ∈ sched, x.2.isPartDone = false) ∨
    ∃ before t e rest, sched = before ++ (t, e) :: rest ∧
      (∀ x ∈ before, x.2.isPartDone = false) ∧ e.isPartDone = true ∧
      sched.takeWhile (fun te => !te.2.isPartDone) = before := by
  induction sched with
  | nil => left; intro x hx; cases hx
  | cons x rest ih =>
    obtain ⟨t, e⟩ := x
    by_cases he : e.isPartDone = true
    · right
      exact ⟨[], t, e, rest, rfl, fun x hx => (by cases hx), he, (by simp [List.takeWhile, he])⟩
    · have he2 : e.isPartDone = false := by simpa using he
      rcases ih with ih | ⟨before, t2, e2, rest2, h1, h2, h3, h4⟩
      · left
        intro y hy
        rcases List.mem_cons.1 hy with hy | hy
        · subst hy; exact he2
        · exact ih y hy
      · right
        refine ⟨(t, e) :: before, t2, e2, rest2, by rw [h1]; rfl, ?_, h3, ?_⟩
        · intro y hy
          rcases List.mem_cons.1 hy with hy | hy
          · subst hy; exact he2
          · exact h2 y hy
        · simp [List.takeWhile, he2, h4]

theorem partDone_step_fires {t : Nat} {e : Event} {s s1 : Sim} (h : step t e s = some s1)
    (he : e.isPartDone = true) :
    s.order.strand_ ≠ [] ∧
    (s.order.sausage_.finished = true ∧ s.order.bread_.finished = true →
      s1.order.handled = s.order.handled ++ [(t, Result.value
        { id := s.order.id_, sausage := s.order.sausage_, bread := s.order.bread_ })]) ∧
    (¬ (s.order.sausage_.finished = true ∧ s.order.bread_.finished = true) →
      s1.order.handled = s.order.handled) := by
  obtain ⟨k, -, -⟩ := step_kind h
  cases k with
  | burner hpd hb hbf hsf hbi hsi hbt hst2 hq hh => rw [he] at hpd; cases hpd
  | breadStop ec he2 hw hx hbf hsf hbi hbt hst2 hq hh => subst he2; cases he
  | sausageStop ec he2 hw hx hsf hbf hsi hst2 hbt hq hh => subst he2; cases he
  | check task hpd hm hbf hsf hbt hst2 hq fires quiet =>
    exact ⟨List.ne_nil_of_mem hm, fires, quiet⟩

/-- With nothing pending only burner completions can happen: `handled` stays as it is. -/
theorem run_of_pending_zero {sched : List (Nat × Event)} {s s1 : Sim}
    (h : run sched s = some s1) (hp : s.order.pending = 0) :
    s1.order.handled = s.order.handled ∧ ∀ x ∈ sched, x.2.isPartDone = false := by
  have hc := pending_run h
  have hz : sched.countP (fun te => te.2.isPartDone) = 0 := by omega
  have hn : ∀ x ∈ sched, x.2.isPartDone = false := by
    intro x hx
    have := (List.countP_eq_zero.1 hz) x hx
    simpa using this
  exact ⟨(run_no_check h hn).1, hn⟩

/-- The first part-done notification of a run, with the state it finds. -/
theorem run_first_check {sched : List (Nat × Event)} {s s3 : Sim}
    (h : run sched s = some s3) (hlt : s3.order.pending < s.order.pending) :
    ∃ before t e rest s1 s2, sched = before ++ (t, e) :: rest ∧
      sched.takeWhile (fun te => !te.2.isPartDone) = before ∧
      (∀ x ∈ before, x.2.isPartDone = false) ∧ e.isPartDone = true ∧
      run before s = some s1 ∧ step t e s1 = some s2 ∧ run rest s2 = some s3 ∧
      s1.order.pending = s.order.pending ∧ s2.order.pending + 1 = s.order.pending := by
  rcases split_first_check sched with hn | ⟨before, t, e, rest, h1, h2, h3, h4⟩
  · exfalso
    have hc := pending_run h
    have hz : sched.countP (fun te => te.2.isPartDone) = 0 := by
      apply List.countP_eq_zero.2
      intro x hx
      simp [hn x hx]
    omega
  · rw [h1] at h
    obtain ⟨s1, r1, r2⟩ := run_append h
    obtain ⟨s2, r3, r4⟩ := run_cons r2
    have p1 := pending_run r1
    have hz : before.countP (fun te => te.2.isPartDone) = 0 := by
      apply List.countP_eq_zero.2
      intro x hx
      simp [h2 x hx]
    have p2 := pending_step r3
    rw [h3] at p2
    simp only [if_true] at p2
    exact ⟨before, t, e, rest, s1, s2, h1, h4, h2, h3, r1, r3, r4, by omega, by omega⟩

/-- With one completion pending (and the other part notified), the remaining notification
finds both parts finished and invokes the handler; nothing else does. -/
theorem run_of_pending_one {sched : List (Nat × Event)} {s s3 : Sim} (hwf : s.order.WF)
    (h : run sched s = some s3) (hp : s.order.pending = 1) (hc : s3.order.pending = 0) :
    ∃ before t e rest s1 s2, sched = before ++ (t, e) :: rest ∧
      (∀ x ∈ before, x.2.isPartDone = false) ∧ e.isPartDone = true ∧
      (∀ x ∈ rest, x.2.isPartDone = false) ∧
      run before s = some s1 ∧ step t e s1 = some s2 ∧
      s1.order.handled = s.order.handled ∧
      s1.order.sausage_.finished = true ∧ s1.order.bread_.finished = true ∧
      s2.order.handled = s1.order.handled ++ [(t, Result.value
        { id := s1.order.id_, sausage := s1.order.sausage_, bread := s1.order.bread_ })] ∧
      s3.order.handled = s2.order.handled := by
  obtain ⟨before, t, e, rest, s1, s2, h1, -, h2, h3, r1, r3, r4, q1, q2⟩ :=
    run_first_check h (by omega)
  have w1 := wf_run hwf r1
  obtain ⟨hne, fires, -⟩ := partDone_step_fires r3 h3
  have hlen : 0 < s1.order.strand_.length := List.length_pos.2 hne
  have hfin : s1.order.sausage_.finished = true ∧ s1.order.bread_.finished = true := by
    have hp1 : s1.order.pending = 1 := by omega
    unfold Order.pending at hp1
    rw [w1.sausageFin, w1.breadFin]
    split_ifs at hp1 with hb hs hs
    · omega
    · omega
    · omega
    · simp [hb, hs]
  obtain ⟨z1, z2⟩ := run_of_pending_zero r4 (by omega)
  exact ⟨before, t, e, rest, s1, s2, h1, h2, h3, z2, r1, r3, (run_no_check r1 h2).1,
    hfin.1, hfin.2, fires hfin, z1⟩

theorem complete_iff_pending (s : Sim) : s.complete ↔ s.order.pending = 0 := by
  unfold Sim.complete Order.pending
  constructor
  · rintro ⟨a, b, c⟩
    rw [a, b, c]; rfl
  · intro h
    have hb : s.order.bread_timer_.waiting = false := by
      cases hb : s.order.bread_timer_.waiting
      · rfl
      · rw [hb] at h; simp at h
    have hs : s.order.sausage_timer_.waiting = false := by
      cases hs : s.order.sausage_timer_.waiting
      · rfl
      · rw [hs] at h; simp at h
    rw [hb, hs] at h
    exact ⟨hb, hs, List.eq_nil_of_length_eq_zero (by simpa using h)⟩

/-! ## The claims -/

/-- C10: in any complete run of an order started by `Execute` (all four completions have run),
`CheckReadiness` runs exactly twice (the schedule has exactly two part-done notifications, each
of which calls it once), the handler is invoked at least once and at most twice, the check made
by the later notification invokes it, and it is invoked twice exactly when both timer
completions (`StopBaking`, `StopFry`) come before the first `CheckReadiness`. -/
theorem C10_complete_run_checks_twice_fires_once_or_twice
    (t0 : Nat) (g : GasCooker) (id : Int) (sched : List (Nat × Event)) (s3 : Sim)
    (hrun : run sched (Sim.start t0 g id) = some s3) (hc : s3.complete) :
    sched.countP (fun te => te.2.isPartDone) = 2 ∧
    1 ≤ s3.order.handled.length ∧ s3.order.handled.length ≤ 2 ∧
    (∃ earlier t e later s1 s2, sched = earlier ++ (t, e) :: later ∧ e.isPartDone = true ∧
      (∀ x ∈ later, x.2.isPartDone = false) ∧
      run earlier (Sim.start t0 g id) = some s1 ∧ step t e s1 = some s2 ∧
      s2.order.handled = s1.order.handled ++ [(t, Result.value
        { id := id, sausage := s1.order.sausage_, bread := s1.order.bread_ })]) ∧
    (s3.order.handled.length = 2 ↔ stopsBeforeFirstCheck sched = true) := by
  have hp0 := pending_start t0 g id
  have hc0 : s3.order.pending = 0 := (complete_iff_pending s3).1 hc
  have hcount := pending_run hrun
  obtain ⟨before, t, e, rest, s1, s2, h1, htw, h2, h3, r1, r3, r4, q1, q2⟩ :=
    run_first_check hrun (by omega)
  have w1 := wf_run (wf_start t0 g id) r1
  have w2 := wf_step w1 r3
  obtain ⟨nh, nb, ns⟩ := run_no_check r1 h2
  rw [start_order] at nh nb ns
  simp only [Bread.new, Sausage.new, Bool.false_or] at nh nb ns
  obtain ⟨before2, t2, e2, rest2, s4, s5, g1, g2, g3, g4, u1, u2, u3, u4, u5, u6, u7⟩ :=
    run_of_pending_one w2 r4 (by omega) hc0
  obtain ⟨-, fires, quiet⟩ := partDone_step_fires r3 h3
  have hid4 : s4.order.id_ = id := by
    have a := (run_fixed u1).1
    have b := (step_kind r3).2.1
    have c := (run_fixed r1).1
    rw [a, b, c, start_order]
  have hstops : stopsBeforeFirstCheck sched = true ↔
      (s1.order.sausage_.finished = true ∧ s1.order.bread_.finished = true) := by
    unfold stopsBeforeFirstCheck
    simp only [htw]
    rw [nb, ns, Bool.and_eq_true]
    exact And.comm
  have hlen : s3.order.handled.length =
      if s1.order.sausage_.finished = true ∧ s1.order.bread_.finished = true then 2 else 1 := by
    rw [u7, u6, u3]
    split_ifs with hb
    · rw [fires hb, nh]; rfl
    · rw [quiet hb, nh]; rfl
  refine ⟨by omega, ?_, ?_, ?_, ?_⟩
  · rw [hlen]; split_ifs <;> omega
  · rw [hlen]; split_ifs <;> omega
  · refine ⟨before ++ (t, e) :: before2, t2, e2, rest2, s4, s5, ?_, g3, g4, ?_, u2, ?_⟩
    · rw [h1, g1]; simp
    · rw [run_append_of r1, run_cons_of_step r3]; exact u1
    · rw [u6, hid4]
  · rw [hlen, hstops]
    split_ifs with hb
    · exact ⟨fun _ => hb, fun _ => rfl⟩
    · exact ⟨fun h => by omega, fun h => absurd h hb⟩

/-- A complete run in which both timer completions precede the notifications: `CheckReadiness`
runs twice and the handler is invoked twice. -/
theorem C10_complete_run_witness :
    ([(1600, Event.breadTimer 0), (1600, Event.sausageTimer 0), (1600, Event.onBreadMade),
        (1600, Event.onSausageMade)] : List (Nat × Event)).countP
      (fun te => te.2.isPartDone) = 2 ∧
    stopsBeforeFirstCheck [(1600, Event.breadTimer 0), (1600, Event.sausageTimer 0),
      (1600, Event.onBreadMade), (1600, Event.onSausageMade)] = true :=
  have h := C10_complete_run_checks_twice_fires_once_or_twice 0 (GasCooker.new 8) 1
    [(1600, Event.breadTimer 0), (1600, Event.sausageTimer 0), (1600, Event.onBreadMade),
      (1600, Event.onSausageMade)]
    { now := 1600
      cooker := (Sim.start 0 (GasCooker.new 8) 1).cooker
      order :=
        { id_ := 1
          start_time_ := 0
          sausage_ := { id := 1, started := false, finished := true }
          bread_ := { id := 1, started := false, finished := true }
          bread_timer_ := { expiry := 1000, waiting := false }
          sausage_timer_ := { expiry := 1500, waiting := false }
          strand_ := []
          handled :=
            [(1600, Result.value
                { id := 1
                  sausage := { id := 1, started := false, finished := true }
                  bread := { id := 1, started := false, finished := true } }),
             (1600, Result.value
                { id := 1
                  sausage := { id := 1, started := false, finished := true }
                  bread := { id := 1, started := false, finished := true } })]
          log := [(0, "Start baking bread"), (0, "Start frying sausage"),
            (1600, "Breed has been baked."), (1600, "Sausage has been fried.")] } }
    (by decide) (by decide)
  ⟨h.1, h.2.2.2.2.1 (by decide)⟩

/-- C1 (the code invokes the handler twice): the thread of `io_` is busy until 1600 ms after
the order was started, so both waits are over; both timer completions run (`StopBaking`,
`StopFry`, each deferring its notification) before either notification; each of the two
`CheckReadiness` calls then finds both parts cooked and invokes the handler. -/
theorem C1_both_stops_first_handler_invoked_twice :
    (run [(1600, Event.breadTimer 0), (1600, Event.sausageTimer 0), (1600, Event.onBreadMade),
        (1600, Event.onSausageMade)] (Sim.start 0 (GasCooker.new 8) 1)).map
      (fun s => (decide s.complete, s.order.handled)) =
    some (true,
      [(1600, Result.value
          { id := 1
            sausage := { id := 1, started := false, finished := true }
            bread := { id := 1, started := false, finished := true } }),
       (1600, Result.value
          { id := 1
            sausage := { id := 1, started := false, finished := true }
            bread := { id := 1, started := false, finished := true } })]) := by
  decide

/-- C6 (a repeated evaluation is not suppressed): after both timer completions and the bread
notification the handler has been invoked once and both parts are cooked; the sausage
notification evaluates `CheckReadiness` again and the handler is invoked a second time, and
any further evaluation invokes it once more. -/
theorem C6_second_evaluation_invokes_handler_again :
    ∃ s1 s2, run [(1600, Event.breadTimer 0), (1600, Event.sausageTimer 0),
        (1600, Event.onBreadMade)] (Sim.start 0 (GasCooker.new 8) 1) = some s1 ∧
      s1.order.handled.length = 1 ∧
      s1.order.sausage_.IsCooked = true ∧ s1.order.bread_.IsCooked = true ∧
      step 1600 Event.onSausageMade s1 = some s2 ∧
      s2.order.handled.length = 2 ∧
      (Order.CheckReadiness 1700 s2.order).handled.length = 3 :=
  ⟨_, _, rfl, by decide, by decide, by decide, rfl, by decide, by decide⟩

/-- C2: `CheckReadiness` invokes the handler (once, with the hot dog of the order) when the
sausage and the bread are both cooked at the moment of the check, and otherwise invokes
nothing and leaves the order as it is; in every state `s` an executing order reaches, the
handler has not been invoked as long as a part is unfinished. -/
theorem C2_handler_invoked_iff_both_parts_cooked
    (now : Nat) (o : Order) (t0 : Nat) (g : GasCooker) (id : Int) (sched : List (Nat × Event))
    (s : Sim) (hrun : run sched (Sim.start t0 g id) = some s) :
    ((Order.CheckReadiness now o).handled ≠ o.handled ↔
      (o.sausage_.IsCooked = true ∧ o.bread_.IsCooked = true)) ∧
    (o.sausage_.IsCooked = true ∧ o.bread_.IsCooked = true →
      Order.CheckReadiness now o = { o with handled := o.handled ++
        [(now, Result.value { id := o.id_, sausage := o.sausage_, bread := o.bread_ })] }) ∧
    (¬ (o.sausage_.IsCooked = true ∧ o.bread_.IsCooked = true) →
      Order.CheckReadiness now o = o) ∧
    (¬ (s.order.sausage_.IsCooked = true ∧ s.order.bread_.IsCooked = true) →
      s.order.handled = [] ∧ Order.CheckReadiness now s.order = s.order) := by
  refine ⟨?_, checkReadiness_of_cooked now o, checkReadiness_of_not_cooked now o, ?_⟩
  · constructor
    · intro h
      by_contra hn
      exact h (by rw [checkReadiness_of_not_cooked now o hn])
    · intro h
      rw [checkReadiness_of_cooked now o h]
      simp
  · intro hn
    exact ⟨(wf_run (wf_start t0 g id) hrun).silent hn, checkReadiness_of_not_cooked now _ hn⟩

/-- An order whose bread is finished and whose sausage is not: the check invokes nothing. -/
theorem C2_handler_invoked_iff_both_parts_cooked_witness :
    ∃ s, run [(1000, Event.breadTimer 0)] (Sim.start 0 (GasCooker.new 8) 1) = some s ∧
      s.order.bread_.IsCooked = true ∧ s.order.sausage_.IsCooked = false ∧
      s.order.handled = [] ∧ Order.CheckReadiness 1000 s.order = s.order :=
  ⟨_, rfl, by decide, by decide,
    (C2_handler_invoked_iff_both_parts_cooked 1000 (Order.new 0 1) 0 (GasCooker.new 8) 1
      [(1000, Event.breadTimer 0)] _ rfl).2.2.2 (by decide)⟩

/-- C3: whenever the handler of the order with identifier `id` is invoked, in any run started
by `Execute`, its argument is a success `Result` holding the hot dog assembled from the
identifier `id` and from the order's own sausage and bread as they are at that moment, both
cooked; every recorded argument is such a success. -/
theorem C3_handler_argument_is_own_cooked_hot_dog
    (t0 : Nat) (g : GasCooker) (id : Int) (sched : List (Nat × Event)) (s : Sim)
    (t : Nat) (e : Event) (s1 : Sim)
    (hrun : run sched (Sim.start t0 g id) = some s) (hstep : step t e s = some s1) :
    (s1.order.handled = s.order.handled ∨
      (s1.order.handled = s.order.handled ++ [(t, Result.value
          { id := id, sausage := s.order.sausage_, bread := s.order.bread_ })] ∧
        s.order.sausage_.IsCooked = true ∧ s.order.bread_.IsCooked = true ∧
        s.order.sausage_.id = id ∧ s.order.bread_.id = id)) ∧
    (∀ x ∈ s1.order.handled, ∃ sq br,
      x.2 = Result.value { id := id, sausage := sq, bread := br } ∧
      sq.id = id ∧ br.id = id ∧ sq.IsCooked = true ∧ br.IsCooked = true) := by
  have w := wf_run (wf_start t0 g id) hrun
  have w1 := wf_step w hstep
  have hid : s.order.id_ = id := by rw [(run_fixed hrun).1, start_order]
  have hid1 : s1.order.id_ = id := by rw [(step_kind hstep).2.1, hid]
  constructor
  · obtain ⟨k, -, -⟩ := step_kind hstep
    cases k with
    | burner hpd hb hbf hsf hbi hsi hbt hst2 hq hh => exact Or.inl hh
    | breadStop ec he2 hw hx hbf hsf hbi hbt hst2 hq hh => exact Or.inl hh
    | sausageStop ec he2 hw hx hsf hbf hsi hst2 hbt hq hh => exact Or.inl hh
    | check task hpd hm hbf hsf hbt hst2 hq fires quiet =>
      by_cases hc : s.order.sausage_.finished = true ∧ s.order.bread_.finished = true
      · right
        refine ⟨?_, hc.1, hc.2, ?_, ?_⟩
        · rw [fires hc, hid]
        · rw [w.sausageId, hid]
        · rw [w.breadId, hid]
      · exact Or.inl (quiet hc)
  · intro x hx
    have := w1.good x hx
    rw [hid1] at this
    exact this

/-- The later notification of a run that cooks the bread first: the handler receives the hot
dog with the identifier 7 of the order. -/
theorem C3_handler_argument_is_own_cooked_hot_dog_witness :
    ∃ s s1, run [(1000, Event.breadTimer 0), (1000, Event.onBreadMade),
        (1500, Event.sausageTimer 0)] (Sim.start 0 (GasCooker.new 8) 7) = some s ∧
      step 1500 Event.onSausageMade s = some s1 ∧
      s1.order.handled = [(1500, Result.value
        { id := 7
          sausage := { id := 7, started := false, finished := true }
          bread := { id := 7, started := false, finished := true } })] ∧
      (∀ x ∈ s1.order.handled, ∃ sq br,
        x.2 = Result.value { id := 7, sausage := sq, bread := br } ∧
        sq.id = 7 ∧ br.id = 7 ∧ sq.IsCooked = true ∧ br.IsCooked = true) :=
  ⟨_, _, rfl, rfl, by decide,
    (C3_handler_argument_is_own_cooked_hot_dog 0 (GasCooker.new 8) 7
      [(1000, Event.breadTimer 0), (1000, Event.onBreadMade), (1500, Event.sausageTimer 0)]
      _ 1500 Event.onSausageMade _ rfl rfl).2⟩

/-- C4 (scenario 1): a single order whose bread notification is processed before the wait on
the sausage timer (1500 ms) completes by expiry. In every complete run of this kind the
handler is invoked exactly once, at an instant no earlier than 1500 ms after the order was
constructed, with a hot dog whose two parts are finished. -/
theorem C4_bread_first_fires_once_after_sausage_expiry
    (t0 : Nat) (g : GasCooker) (id : Int) (before later : List (Nat × Event)) (ts : Nat)
    (s3 : Sim)
    (hrun : run (before ++ (ts, Event.sausageTimer 0) :: later) (Sim.start t0 g id) = some s3)
    (hb : ∃ tb, (tb, Event.onBreadMade) ∈ before) (hc : s3.complete) :
    ∃ tf sq br, s3.order.handled =
        [(tf, Result.value { id := id, sausage := sq, bread := br })] ∧
      t0 + 1500 ≤ tf ∧ sq.IsCooked = true ∧ br.IsCooked = true := by
  obtain ⟨s1, r1, r2⟩ := run_append hrun
  obtain ⟨s2, r3, r4⟩ := run_cons r2
  have hc0 : s3.order.pending = 0 := (complete_iff_pending s3).1 hc
  have w1 := wf_run (wf_start t0 g id) r1
  have w2 := wf_step w1 r3
  obtain ⟨hw, hx, -⟩ := step_sausageTimer r3
  have hs1 : s1.order.handled = [] := by
    apply w1.silent
    rw [w1.sausageFin, hw]
    simp
  have p1 := pending_run r1
  rw [pending_start] at p1
  have hpos : 0 < before.countP (fun te => te.2.isPartDone) := by
    obtain ⟨tb, htb⟩ := hb
    exact List.countP_pos_iff.2 ⟨(tb, Event.onBreadMade), htb, rfl⟩
  have hge : 1 ≤ s1.order.pending := by
    unfold Order.pending
    rw [hw]
    simp
  have p2 := pending_step r3
  simp only [Event.isPartDone] at p2
  obtain ⟨before2, t2, e2, rest2, s4, s5, -, g2, -, -, u1, u2, u3, u4, u5, u6, u7⟩ :=
    run_of_pending_one w2 r4 (by simp at p2; omega) hc0
  have h2 : s2.order.handled = [] := by
    obtain ⟨k, -, -⟩ := step_kind r3
    cases k with
    | burner hpd hb hbf hsf hbi hsi hbt hst2 hq hh => rw [hh, hs1]
    | breadStop ec he2 hw hx hbf hsf hbi hbt hst2 hq hh => rw [hh, hs1]
    | sausageStop ec he2 hw hx hsf hbf hsi hst2 hbt hq hh => rw [hh, hs1]
    | check task hpd hm hbf hsf hbt hst2 hq fires quiet => cases hpd
  have hid4 : s4.order.id_ = id := by
    rw [(run_fixed u1).1, (step_kind r3).2.1, (run_fixed r1).1, start_order]
  have hstart : s1.order.start_time_ = t0 := by rw [(run_fixed r1).2.1, start_order]
  have hexp : t0 + 1500 ≤ ts := by
    have := hx rfl
    rw [w1.sausageExpiry, hstart] at this
    exact this
  have htime : ts ≤ t2 := by
    have a := (step_time r3).2
    have b := (run_fixed u1).2.2
    have c := (step_time u2).1
    omega
  refine ⟨t2, s4.order.sausage_, s4.order.bread_, ?_, by omega, u4, u5⟩
  rw [u7, u6, u3, h2, hid4]
  rfl

/-- The timed run of scenario 1: bread at 1000 ms, sausage at 1500 ms. -/
theorem C4_bread_first_fires_once_after_sausage_expiry_witness :
    ∃ s3, run ([(1000, Event.breadTimer 0), (1000, Event.onBreadMade)] ++
        (1500, Event.sausageTimer 0) :: [(1500, Event.onSausageMade)])
        (Sim.start 0 (GasCooker.new 8) 1) = some s3 ∧
      (∃ tb, (tb, Event.onBreadMade) ∈
        [(1000, Event.breadTimer 0), (1000, Event.onBreadMade)]) ∧
      s3.complete ∧
      ∃ tf sq br, s3.order.handled =
          [(tf, Result.value { id := 1, sausage := sq, bread := br })] ∧
        0 + 1500 ≤ tf ∧ sq.IsCooked = true ∧ br.IsCooked = true :=
  ⟨_, rfl, ⟨1000, by decide⟩, by decide,
    C4_bread_first_fires_once_after_sausage_expiry 0 (GasCooker.new 8) 1
      [(1000, Event.breadTimer 0), (1000, Event.onBreadMade)] [(1500, Event.onSausageMade)]
      1500 _ rfl ⟨1000, by decide⟩ (by decide)⟩

/-- C5 (counterexample): the pool has no free burner, so the burner requests of both parts
wait in its queue and neither part ever acquires one (the acquisition completions cannot
happen, both parts stay not started). Both waits complete by expiry, and the handler is
invoked with a success result; no failure result is delivered. -/
theorem C5_burner_never_acquired_yields_success_result :
    ∃ s, run [(1000, Event.breadTimer 0), (1000, Event.onBreadMade),
          (1500, Event.sausageTimer 0), (1500, Event.onSausageMade)]
        (Sim.start 0 { capacity := 8, available := 0, waiting := [], posted := [] } 1) = some s ∧
      s.complete ∧
      s.cooker.posted = [] ∧
      s.cooker.waiting =
        [{ orderId := 1, kind := PartKind.bread }, { orderId := 1, kind := PartKind.sausage }] ∧
      s.order.bread_.started = false ∧ s.order.sausage_.started = false ∧
      step 1500 Event.breadBurner s = none ∧ step 1500 Event.sausageBurner s = none ∧
      s.order.handled.map (fun x => x.2.isValue) = [true] :=
  ⟨_, rfl, by decide, by decide, by decide, by decide, by decide, by decide, by decide,
    by decide⟩

/-- C5 (amended): in every run of an order, also one whose parts never acquire a burner, no
failure result is delivered: every argument the handler receives is a success `Result`. -/
theorem C5_handler_never_receives_failure_result
    (t0 : Nat) (g : GasCooker) (id : Int) (sched : List (Nat × Event)) (s : Sim)
    (hrun : run sched (Sim.start t0 g id) = some s) :
    ∀ x ∈ s.order.handled, x.2.isValue = true ∧ ∀ what, x.2 ≠ Result.failure what := by
  intro x hx
  obtain ⟨sq, br, hv, -⟩ := (wf_run (wf_start t0 g id) hrun).good x hx
  rw [hv]
  exact ⟨rfl, fun what h => by cases h⟩

/-- An order on a pool without a free burner, both timer completions before the
notifications: each argument the handler has received is a success. -/
theorem C5_handler_never_receives_failure_result_witness :
    ∃ s, run [(1000, Event.breadTimer 0), (1500, Event.sausageTimer 0),
          (1500, Event.onSausageMade), (1500, Event.onBreadMade)]
        (Sim.start 0 { capacity := 8, available := 0, waiting := [], posted := [] } 1) = some s ∧
      s.order.handled.length = 2 ∧
      ∀ x ∈ s.order.handled, x.2.isValue = true ∧ ∀ what, x.2 ≠ Result.failure what :=
  ⟨_, rfl, by decide,
    C5_handler_never_receives_failure_result 0
      { capacity := 8, available := 0, waiting := [], posted := [] } 1
      [(1000, Event.breadTimer 0), (1500, Event.sausageTimer 0),
        (1500, Event.onSausageMade), (1500, Event.onBreadMade)] _ rfl⟩

theorem wrapInt_of_range {x : Int} (h1 : INT_MIN ≤ x) (h2 : x ≤ INT_MAX) : wrapInt x = x := by
  unfold wrapInt
  unfold INT_MIN at h1
  unfold INT_MAX at h2
  omega

theorem orderHotDog_id (now : Nat) (c : Cafeteria) :
    (Cafeteria.OrderHotDog now c).2.id_ = wrapInt (c.next_order_id_ + 1) ∧
    (Cafeteria.OrderHotDog now c).1.next_order_id_ = wrapInt (c.next_order_id_ + 1) :=
  ⟨rfl, rfl⟩

theorem orderIds_succ (n : Nat) (c : Cafeteria) :
    Cafeteria.orderIds (n + 1) c =
      wrapInt (c.next_order_id_ + 1) :: Cafeteria.orderIds n (Cafeteria.OrderHotDog 0 c).1 :=
  rfl

/-- The identifiers of `n` successive orders, as long as the counter stays below `INT_MAX`. -/
theorem orderIds_chain (n : Nat) (c : Cafeteria) (h1 : INT_MIN ≤ c.next_order_id_)
    (h2 : c.next_order_id_ + n ≤ INT_MAX) :
    List.Chain (fun a b => a < b ∧ b = a + 1) c.next_order_id_ (Cafeteria.orderIds n c) ∧
    Cafeteria.orderIds n c = (List.range n).map (fun (k : Nat) => c.next_order_id_ + 1 + (k : Int)) := by
  induction n generalizing c with
  | zero => exact ⟨List.Chain.nil, rfl⟩
  | succ n ih =>
    have hw : wrapInt (c.next_order_id_ + 1) = c.next_order_id_ + 1 := by
      apply wrapInt_of_range
      · omega
      · push_cast at h2; omega
    have hn : (Cafeteria.OrderHotDog 0 c).1.next_order_id_ = c.next_order_id_ + 1 := by
      rw [(orderHotDog_id 0 c).2, hw]
    obtain ⟨a, b⟩ := ih (Cafeteria.OrderHotDog 0 c).1 (by rw [hn]; omega)
      (by rw [hn]; push_cast at h2; omega)
    rw [orderIds_succ, hw]
    constructor
    · rw [hn] at a
      exact List.Chain.cons ⟨by omega, rfl⟩ a
    · rw [b, hn, List.range_succ_eq_map, List.map_cons, List.map_map]
      congr 1
      · simp
      · apply List.map_congr_left
        intro k _
        simp only [Function.comp, Nat.succ_eq_add_one]
        push_cast
        ring

/-- C7 (counterexample): with the counter at 2147483646 two successive orders get the
identifiers 2147483647 and -2147483648: the second is not the first plus one and the
identifiers do not increase. -/
theorem C7_ids_wrap_at_int_max :
    Cafeteria.orderIds 2 (Cafeteria.new 2147483646) = [2147483647, -2147483648] ∧
    ¬ List.Chain' (fun a b : Int => a < b ∧ b = a + 1)
      (Cafeteria.orderIds 2 (Cafeteria.new 2147483646)) := by
  have h : Cafeteria.orderIds 2 (Cafeteria.new 2147483646) = [2147483647, -2147483648] := by
    decide
  refine ⟨h, ?_⟩
  rw [h, List.chain'_pair]
  omega

/-- C7 (amended): for every initial `int` value of `next_order_id_` and every `n` such that the
counter does not pass `INT_MAX`, the identifiers assigned by `n` successive `OrderHotDog` calls
are the initial value plus 1, 2, ..., `n`: strictly increasing, each the previous one plus one,
and pairwise distinct. -/
theorem C7_ids_consecutive_below_int_max (n : Nat) (c : Cafeteria)
    (h1 : INT_MIN ≤ c.next_order_id_) (h2 : c.next_order_id_ + n ≤ INT_MAX) :
    Cafeteria.orderIds n c = (List.range n).map (fun (k : Nat) => c.next_order_id_ + 1 + (k : Int)) ∧
    List.Chain' (fun a b => a < b ∧ b = a + 1) (Cafeteria.orderIds n c) ∧
    (Cafeteria.orderIds n c).Pairwise (fun a b => a < b) ∧
    (Cafeteria.orderIds n c).Nodup := by
  obtain ⟨a, b⟩ := orderIds_chain n c h1 h2
  have hc0 : List.Chain' (fun a b => a < b ∧ b = a + 1)
      (c.next_order_id_ :: Cafeteria.orderIds n c) := a
  have hc : List.Chain' (fun a b => a < b ∧ b = a + 1) (Cafeteria.orderIds n c) := hc0.tail
  have hlt : List.Chain' (fun a b : Int => a < b) (Cafeteria.orderIds n c) :=
    hc.imp (fun _ _ h => h.1)
  have hp : (Cafeteria.orderIds n c).Pairwise (fun a b => a < b) :=
    List.chain'_iff_pairwise.1 hlt
  exact ⟨b, hc, hp, hp.imp (fun h => ne_of_lt h)⟩

/-- Three successive orders of a cafeteria whose counter holds 41. -/
theorem C7_ids_consecutive_below_int_max_witness :
    Cafeteria.orderIds 3 (Cafeteria.new 41) =
      (List.range 3).map (fun (k : Nat) => (Cafeteria.new 41).next_order_id_ + 1 + (k : Int)) ∧
    List.Chain' (fun a b => a < b ∧ b = a + 1) (Cafeteria.orderIds 3 (Cafeteria.new 41)) ∧
    (Cafeteria.orderIds 3 (Cafeteria.new 41)).Pairwise (fun a b => a < b) ∧
    (Cafeteria.orderIds 3 (Cafeteria.new 41)).Nodup :=
  C7_ids_consecutive_below_int_max 3 (Cafeteria.new 41) (by decide) (by decide)

/-- C8 (two threads get the same identifier): with the counter at 0, when both threads load
before either stores, each stores 1 and both take 1 as `order_id`; when the second thread
increments between the store and the read of the first, both take 2. -/
theorem C8_racing_increments_give_duplicate_id :
    (Racing.run [Access.load 0, Access.load 1, Access.store 0, Access.read 0, Access.store 1,
        Access.read 1]
      (Racing.start 0)).map (fun r => (r.order_id 0, r.order_id 1, r.next_order_id_)) =
      some (some 1, some 1, 1) ∧
    (Racing.run [Access.load 0, Access.store 0, Access.load 1, Access.store 1, Access.read 0,
        Access.read 1]
      (Racing.start 0)).map (fun r => (r.order_id 0, r.order_id 1, r.next_order_id_)) =
      some (some 2, some 2, 2) := by
  decide

/-- C9 (`StopBaking` before the burner is acquired): five orders are started at once on the
cooker with 8 burners. The bread request of the fifth order waits in the queue of the pool, so
its acquisition cannot complete; its `bread_timer_`, set at construction, expires after 1 s all
the same, and the completion handler runs `StopBaking` and defers the notification: the bread
is marked finished without ever having started. -/
theorem C9_fifth_order_stops_baking_without_burner :
    ∃ c5 o1 o2 o3 o4 o5 s1,
      Cafeteria.orderMany 0 5 (Cafeteria.new 0) = (c5, [o1, o2, o3, o4, o5]) ∧
      o5.id_ = 5 ∧ o5.bread_timer_ = { expiry := 1000, waiting := true } ∧
      c5.gas_cooker_.waiting =
        [{ orderId := 5, kind := PartKind.bread }, { orderId := 5, kind := PartKind.sausage }] ∧
      step 1000 Event.breadBurner { now := 0, cooker := c5.gas_cooker_, order := o5 } = none ∧
      step 1000 (Event.breadTimer 0) { now := 0, cooker := c5.gas_cooker_, order := o5 } =
        some s1 ∧
      s1.order.bread_.started = false ∧ s1.order.bread_.IsCooked = true ∧
      s1.order.strand_ = [StrandTask.OnBreadMade] ∧
      s1.cooker.waiting =
        [{ orderId := 5, kind := PartKind.bread }, { orderId := 5, kind := PartKind.sausage }] :=
  ⟨_, _, _, _, _, _, _, rfl, by decide, by decide, by decide, by decide, rfl, by decide,
    by decide, by decide, by decide⟩

end Cafe
